import Mathlib

/-
Verification development for the kolla configuration bootstrapper
(`docker/base/set_configs.py`).

The script manipulates a POSIX filesystem, the process environment and the
user database.  We give a shallow embedding: the filesystem is a finite
association list from (normalized) absolute path strings to nodes, the user
database is a pair of association lists mirroring `pwd`/`grp`, and each
Python function of the script becomes an executable Lean function over these
states.  Python exceptions become `Except` errors; stateful operations that
can raise carry the filesystem at raise time in the error value.

Library primitives used by the script (`os.path.*`, `glob.glob`,
`shutil.copy`, `shutil.copytree`, `os.walk`, `pwd`, `grp`, `int(s, 0)`) are
modelled alongside, faithful to their CPython 2 behaviour on the fragment
the script exercises (absolute paths, no symlink indirection except for
dangling links, which are represented by a dedicated node kind that exists
for `os.path.lexists`/`glob` but not for `os.path.exists`).
-/

set_option autoImplicit false

deriving instance DecidableEq for Except

namespace Kolla

/-- A filesystem node: a regular file (content, permission bits, owning
uid/gid, and whether the process may read it), a directory, or a dangling
symlink (`broken`), which `os.path.lexists` and `glob` see but
`os.path.exists` does not. -/
inductive Node where
  | file (content : String) (perm : Nat) (uid : Nat) (gid : Nat) (readable : Bool)
  | dir (perm : Nat) (uid : Nat) (gid : Nat)
  | broken
deriving DecidableEq, Repr

/-- The filesystem: an association list from normalized absolute paths to
nodes.  The first binding for a key wins. -/
structure FS where
  nodes : List (String × Node)
deriving DecidableEq, Repr

/-- Python exceptions raised (directly or via libraries) by the script. -/
inductive Err where
  | sourceFileNotFound (src : String)
  | configFileBadState (src : String)
  | badConfigStrategy
  | configFileError
  | valueError
  | ioError (p : String)
  | osError (p : String)
  | keyError (k : String)
  | typeError
deriving DecidableEq, Repr

/-- The user database backing `pwd` and `grp`: passwd rows
`(name, pw_uid, pw_gid)` and group rows `(gid, group name)`. -/
structure UserDB where
  passwd : List (String × Nat × Nat)
  groups : List (Nat × String)
deriving DecidableEq, Repr

/-- `pwd.getpwnam`: the `(pw_uid, pw_gid)` of the named user. -/
def UserDB.getpwnam (u : UserDB) (name : String) : Option (Nat × Nat) :=
  (u.passwd.find? (fun r => r.1 == name)).map (·.2)

/-- `pwd.getpwuid(uid).pw_name`. -/
def UserDB.getpwuidName (u : UserDB) (uid : Nat) : Option String :=
  (u.passwd.find? (fun r => r.2.1 == uid)).map (·.1)

/-- `grp.getgrgid(gid).gr_name`. -/
def UserDB.getgrgidName (u : UserDB) (gid : Nat) : Option String :=
  (u.groups.find? (fun r => r.1 == gid)).map (·.2)

/-! ### Path arithmetic (`os.path` on POSIX, `os.sep = "/"`)

The Lean string library walks byte positions, which the kernel cannot
unfold, so every path operation below is spelled out structurally over the
character list of the path. -/

/-- Does the path start with a separator (absolute path)? -/
def startsWithSlash (p : String) : Bool :=
  match p.toList with
  | '/' :: _ => true
  | _ => false

/-- Does the path end with `os.sep`? (`dest.endswith(os.sep)`). -/
def endsWithSlash (p : String) : Bool :=
  match p.toList.reverse with
  | '/' :: _ => true
  | _ => false

/-- `p.split("/")` on the character list, structurally. -/
def splitSlashGo (acc : List Char) : List Char → List String
  | [] => [String.mk acc]
  | '/' :: cs => String.mk acc :: splitSlashGo [] cs
  | c :: cs => splitSlashGo (acc ++ [c]) cs

/-- `p.split("/")`. -/
def splitSlash (p : String) : List String :=
  splitSlashGo [] p.toList

/-- `"/".join(l)`, structurally. -/
def joinSlash : List String → String
  | [] => ""
  | [c] => c
  | c :: cs => c ++ "/" ++ joinSlash cs

/-- Resolve `.`/`..`/empty components left to right, as the kernel does when
it resolves a path without symlinks (`..` at the root stays at the root). -/
def resolveComps : List String → List String → List String
  | acc, [] => acc.reverse
  | acc, c :: cs =>
    if c = "" || c = "." then resolveComps acc cs
    else if c = ".." then resolveComps (acc.drop 1) cs
    else resolveComps (c :: acc) cs

/-- Normalize a path for filesystem lookup: resolve dots and drop trailing
separators.  `normPath "/a/" = "/a"`, `normPath "/d/.." = "/"`. -/
def normPath (p : String) : String :=
  if startsWithSlash p then "/" ++ joinSlash (resolveComps [] (splitSlash p))
  else joinSlash (resolveComps [] (splitSlash p))

/-- `os.path.dirname` (POSIX): everything before the last `/`, with trailing
slashes stripped unless the result is all slashes. -/
def dirname (p : String) : String :=
  let cs := p.toList
  if cs.contains '/' then
    let head := (cs.reverse.dropWhile (fun c => c != '/')).reverse
    if head.all (fun c => c = '/') then String.mk head
    else String.mk (head.reverse.dropWhile (fun c => c = '/')).reverse
  else ""

/-- `os.path.basename` (POSIX): everything after the last `/`. -/
def basename (p : String) : String :=
  String.mk (p.toList.reverse.takeWhile (fun c => c != '/')).reverse

/-- `os.path.join a b` (POSIX, two arguments). -/
def pathJoin (a b : String) : String :=
  if startsWithSlash b then b
  else if a = "" then b
  else if endsWithSlash a then a ++ b
  else a ++ "/" ++ b

/-- Length of the common leading run of two component lists. -/
def commonLen : List String → List String → Nat
  | a :: as, b :: bs => if a = b then commonLen as bs + 1 else 0
  | _, _ => 0

/-- `os.path.relpath path start` for absolute paths: climb from `start` up to
the common ancestor with `..` components, then descend into `path`. -/
def relpath (path start : String) : String :=
  let pc := resolveComps [] (splitSlash path)
  let sc := resolveComps [] (splitSlash start)
  let k := commonLen pc sc
  let parts := List.replicate (sc.length - k) ".." ++ pc.drop k
  if parts = [] then "." else joinSlash parts

/-! ### Filesystem primitives -/

/-- Association-list lookup by normalized path. -/
def lookupKey : List (String × Node) → String → Option Node
  | [], _ => none
  | (k, n) :: rest, p => if k = p then some n else lookupKey rest p

def FS.lookup (fs : FS) (p : String) : Option Node :=
  lookupKey fs.nodes (normPath p)

/-- `os.path.lexists`: the path is bound to any node, dangling links included. -/
def FS.lexists (fs : FS) (p : String) : Bool :=
  (fs.lookup p).isSome

/-- `os.path.exists`: the path resolves to a file or directory. -/
def FS.pathExists (fs : FS) (p : String) : Bool :=
  match fs.lookup p with
  | some (.file ..) => true
  | some (.dir ..) => true
  | _ => false

/-- `os.path.isdir`. -/
def FS.isDir (fs : FS) (p : String) : Bool :=
  match fs.lookup p with
  | some (.dir ..) => true
  | _ => false

/-- Remove the single binding of a path (`os.remove`). -/
def FS.erasePath (fs : FS) (p : String) : FS :=
  ⟨fs.nodes.filter (fun kn => !(kn.1 == normPath p))⟩

/-- Bind a path to a node, shadowing nothing (earlier bindings are dropped). -/
def FS.insertPath (fs : FS) (p : String) (n : Node) : FS :=
  ⟨(normPath p, n) :: (fs.erasePath p).nodes⟩

/-- The common step of `underEq`: the child-prefix of a normalized root. -/
def childPre (r : String) : String :=
  if endsWithSlash r then r else r ++ "/"

/-- `p` is the root itself or lies underneath it. -/
def underEq (root p : String) : Bool :=
  let r := normPath root
  let q := normPath p
  q == r || (childPre r).toList.isPrefixOf q.toList

/-- `p` lies strictly underneath `root`. -/
def strictlyUnder (root p : String) : Bool :=
  underEq root p && !(normPath p == normPath root)

/-- `shutil.rmtree`: drop the root and everything underneath it. -/
def FS.rmtree (fs : FS) (p : String) : FS :=
  ⟨fs.nodes.filter (fun kn => !(underEq p kn.1))⟩

/-- The chain of ancestors of an absolute path, outermost first:
`ancestorsOf "/a/b" = ["/a", "/a/b"]`. -/
def ancestorsOf (p : String) : List String :=
  let comps := resolveComps [] (splitSlash p)
  (List.range comps.length).map (fun i => "/" ++ joinSlash (comps.take (i + 1)))

/-- One step of `os.makedirs`: ensure a single directory exists. -/
def mkdirStep (fs : FS) (a : String) : Except (Err × FS) FS :=
  match fs.lookup a with
  | some (.dir ..) => .ok fs
  | none => .ok (fs.insertPath a (.dir 0o777 0 0))
  | _ => .error (.osError a, fs)

/-- `os.makedirs`: create every missing directory on the ancestor chain;
fails (with the partially built state) if a non-directory is in the way. -/
def FS.makedirs (fs : FS) (p : String) : Except (Err × FS) FS :=
  (ancestorsOf p).foldlM mkdirStep fs

/-- First-binding-wins deduplication of the node list; operations that
enumerate the filesystem (walks, globs) see each live binding once. -/
def canonNodes (fs : FS) : List (String × Node) :=
  go [] fs.nodes
where
  go (seen : List String) : List (String × Node) → List (String × Node)
    | [] => []
    | (k, n) :: rest =>
      if seen.contains k then go seen rest
      else (k, n) :: go (k :: seen) rest

/-- Reading a file (`open(p).read()`): fails on directories, dangling links,
missing paths and unreadable files, as `open` does. -/
def FS.readFileE (fs : FS) (p : String) : Except Err String :=
  match fs.lookup p with
  | some (.file c _ _ _ r) => if r then .ok c else .error (.ioError p)
  | _ => .error (.ioError p)

/-- `os.stat`: `(st_mode, st_uid, st_gid)`; `st_mode` carries the file-type
bits exactly as the kernel reports them. -/
def FS.statE (fs : FS) (p : String) : Except Err (Nat × Nat × Nat) :=
  match fs.lookup p with
  | some (.file _ perm uid gid _) => .ok (0o100000 + perm, uid, gid)
  | some (.dir perm uid gid) => .ok (0o40000 + perm, uid, gid)
  | _ => .error (.osError p)

/-- `oct(st_mode)[-4:]` (Python 2 `oct` prints a leading `0`). -/
def octLast4 (m : Nat) : String :=
  let s := '0' :: Nat.toDigits 8 m
  String.mk (s.reverse.take 4).reverse

/-! ### `glob.glob` -/

/-- `glob.has_magic`. -/
def hasMagic (p : String) : Bool :=
  p.toList.any (fun c => c == '*' || c == '?' || c == '[')

/-- Shell-pattern match with explicit fuel (each step consumes one unit and
shrinks pattern or path, so `|pattern| + |path| + 1` units always suffice):
`*` and `?` do not cross `/`.  (Character classes are not modelled; patterns
used in this development avoid them.) -/
def globMatchFuel : Nat → List Char → List Char → Bool
  | 0, _, _ => false
  | _ + 1, [], [] => true
  | _ + 1, [], _ :: _ => false
  | f + 1, '*' :: ps, s =>
    globMatchFuel f ps s ||
      (match s with
       | c :: rest => !(c == '/') && globMatchFuel f ('*' :: ps) rest
       | [] => false)
  | f + 1, '?' :: ps, c :: rest => !(c == '/') && globMatchFuel f ps rest
  | _ + 1, '?' :: _, [] => false
  | f + 1, c :: ps, d :: rest => c == d && globMatchFuel f ps rest
  | _ + 1, _ :: _, [] => false

/-- Shell-pattern match: `*` and `?` do not cross `/`. -/
def globMatch (ps s : List Char) : Bool :=
  globMatchFuel (ps.length + s.length + 1) ps s

/-- `glob.glob`: a pattern without magic characters names itself when it
`lexists`; a magic pattern selects the bound paths that match it. -/
def glob (fs : FS) (pat : String) : List String :=
  if hasMagic pat then ((canonNodes fs).map Prod.fst).filter (fun k => globMatch pat.toList k.toList)
  else if fs.lexists pat then [pat] else []

/-! ### The integer parse used for `perm` -/

/-- Value of one digit in bases up to 16 (code points: digits 48-57,
lower-case letters 97-102, upper-case letters 65-70). -/
def hexDigitVal (c : Char) : Option Nat :=
  let n := c.toNat
  if 48 ≤ n && n ≤ 57 then some (n - 48)
  else if 97 ≤ n && n ≤ 102 then some (n - 87)
  else if 65 ≤ n && n ≤ 70 then some (n - 55)
  else none

/-- Digits in a given base, most significant first. -/
def digitsVal (base : Nat) : List Char → Option Nat → Option Nat
  | [], acc => acc
  | c :: cs, acc =>
    match acc, hexDigitVal c with
    | some a, some v => if v < base then digitsVal base cs (some (a * base + v)) else none
    | _, _ => none

/-- `int(s, 0)` of CPython 2 on an unsigned literal: base auto-detection in
the C tradition - `0x` hex, `0o` octal, `0b` binary, a further leading `0`
octal, anything else decimal. -/
def parseIntBase0 (s : String) : Option Nat :=
  match s.toList with
  | [] => none
  | ['0'] => some 0
  | '0' :: c :: rest =>
    if c == 'x' || c == 'X' then digitsVal 16 rest (some 0)
    else if c == 'o' || c == 'O' then digitsVal 8 rest (some 0)
    else if c == 'b' || c == 'B' then digitsVal 2 rest (some 0)
    else digitsVal 8 (c :: rest) (some 0)
  | cs => digitsVal 10 cs (some 0)

/-! ### The `ConfigFile` class -/

/-- The uid/gid the script runs as (the container entrypoint runs as root);
files it creates are owned by this identity until `chown` changes them. -/
def procUid : Nat := 0

def procGid : Nat := 0

/-- One `config_files` entry, as constructed by `ConfigFile.__init__`. -/
structure ConfigFile where
  source : String
  dest : String
  owner : String
  perm : String
  optional : Bool
deriving DecidableEq, Repr

/-- Apply new ownership to a node (`os.chown`). -/
def Node.withOwner (n : Node) (uid gid : Nat) : Node :=
  match n with
  | .file c p _ _ r => .file c p uid gid r
  | .dir p _ _ => .dir p uid gid
  | .broken => .broken

/-- Apply new permission bits to a node (`os.chmod`). -/
def Node.withPerm (n : Node) (perm : Nat) : Node :=
  match n with
  | .file c _ u g r => .file c perm u g r
  | .dir _ u g => .dir perm u g
  | .broken => .broken

/-- `ConfigFile._set_permission`: `pwd.getpwnam(owner)` (raising `KeyError`
for an unknown user), `os.chown(path, pw_uid, pw_gid)`, then
`os.chmod(path, int(perm, 0))` (raising `ValueError` for an unparsable
string). -/
def ConfigFile.setPermission (cf : ConfigFile) (udb : UserDB) (fs : FS) (path : String) :
    Except Err FS :=
  match udb.getpwnam cf.owner with
  | none => .error (.keyError cf.owner)
  | some (uid, gid) =>
    match fs.lookup path with
    | some (.broken) => .error (.osError path)
    | none => .error (.osError path)
    | some n =>
      let fs1 := fs.insertPath path (n.withOwner uid gid)
      match parseIntBase0 cf.perm with
      | none => .error .valueError
      | some m =>
        match fs1.lookup path with
        | some n1 => .ok (fs1.insertPath path (n1.withPerm m))
        | none => .error (.osError path)

/-- `ConfigFile._copy_file`: resolve the trailing-separator convention,
`shutil.copy` (which itself copies into a directory target and copies the
source's permission bits, and fails when the target's parent directory is
missing), then `_set_permission` on the function's `dest` variable. -/
def ConfigFile.copyFile (cf : ConfigFile) (udb : UserDB) (fs : FS) (source dest : String) :
    Except Err FS :=
  let d := if endsWithSlash dest then pathJoin dest (basename source) else dest
  match fs.lookup source with
  | some (.file c p _ _ r) =>
    if r then
      let target := if fs.isDir d then pathJoin d (basename source) else d
      if fs.isDir (dirname target) then
        let fs1 := fs.insertPath target (.file c p procUid procGid true)
        cf.setPermission udb fs1 d
      else .error (.ioError target)
    else .error (.ioError source)
  | _ => .error (.ioError source)

/-- Map a path underneath `source` to the mirrored path underneath `dest`. -/
def mirrorPath (source dest k : String) : String :=
  normPath dest ++ String.mk (k.toList.drop (normPath source).toList.length)

/-- The node written for a tree-copied entry: `copy2` keeps content and
permission bits, ownership falls to the copying process. -/
def copiedNode (n : Node) : Node :=
  match n with
  | .file c p _ _ r => .file c p procUid procGid r
  | .dir p _ _ => .dir p procUid procGid
  | .broken => .broken

/-- `shutil.copytree source dest`: `os.makedirs(dest)` (so an existing
`dest` is an error and missing ancestors are created), `copystat` of the
tree root, and a `copy2` of every member; a dangling link in the tree makes
the copy fail. -/
def copytree (fs : FS) (source dest : String) : Except Err FS :=
  if fs.lexists dest then .error (.osError dest)
  else
    let subs := (canonNodes fs).filter (fun kn => strictlyUnder source kn.1)
    if subs.any (fun kn => kn.2 == .broken) then .error (.ioError source)
    else
      match fs.lookup source with
      | some (.dir p _ _) =>
        match fs.makedirs (dirname (normPath dest)) with
        | .error (e, _) => .error e
        | .ok fs1 =>
          let fs2 := fs1.insertPath dest (.dir p procUid procGid)
          .ok (subs.foldl (fun acc kn => FS.insertPath acc (mirrorPath source dest kn.1) (copiedNode kn.2)) fs2)
      | _ => .error (.ioError source)

/-- The permission pass of `_copy_dir`: `os.walk(dest)` visits every
directory and file strictly underneath `dest`, and `_set_permission` is
applied to each. -/
def ConfigFile.setPermWalk (cf : ConfigFile) (udb : UserDB) : FS → List String → Except Err FS
  | fs, [] => .ok fs
  | fs, p :: rest =>
    match cf.setPermission udb fs p with
    | .error e => .error e
    | .ok fs1 => cf.setPermWalk udb fs1 rest

/-- `ConfigFile._copy_dir`: `shutil.copytree` then the `os.walk` permission
pass over everything underneath `dest` (note: not `dest` itself). -/
def ConfigFile.copyDir (cf : ConfigFile) (udb : UserDB) (fs : FS) (source dest : String) :
    Except Err FS :=
  match copytree fs source dest with
  | .error e => .error e
  | .ok fs1 =>
    let keys := ((canonNodes fs1).filter
      (fun kn => strictlyUnder dest kn.1 && !(kn.2 == .broken))).map Prod.fst
    cf.setPermWalk udb fs1 keys

/-- Destination preparation at the top of `ConfigFile.copy`: an existing
destination is removed outright (recursively for a directory); otherwise a
missing parent directory is created.  Note the `elif`: when the destination
existed, the parent-creation branch is skipped. -/
def ConfigFile.prep (cf : ConfigFile) (fs : FS) : Except (Err × FS) FS :=
  if fs.pathExists cf.dest then
    if fs.isDir cf.dest then .ok (fs.rmtree cf.dest) else .ok (fs.erasePath cf.dest)
  else if !(fs.pathExists (dirname cf.dest)) then fs.makedirs (dirname cf.dest)
  else .ok fs

/-- The per-match loop of `ConfigFile.copy`: optional entries skip matches
that no longer exist; a directory match is tree-copied, anything else is
file-copied. -/
def ConfigFile.copyLoop (cf : ConfigFile) (udb : UserDB) : List String → FS → Except (Err × FS) FS
  | [], fs => .ok fs
  | s :: rest, fs =>
    if cf.optional && !(fs.pathExists s) then cf.copyLoop udb rest fs
    else
      match (if fs.isDir s then cf.copyDir udb fs s cf.dest else cf.copyFile udb fs s cf.dest) with
      | .error e => .error (e, fs)
      | .ok fs1 => cf.copyLoop udb rest fs1

/-- `ConfigFile.copy`: destination preparation, glob expansion of `source`,
the required/optional source policy, then the per-match copy loop. -/
def ConfigFile.copy (cf : ConfigFile) (udb : UserDB) (fs : FS) : Except (Err × FS) FS :=
  match cf.prep fs with
  | .error e => .error e
  | .ok fs1 =>
    let sources := glob fs1 cf.source
    if !cf.optional then
      if sources.isEmpty then .error (.sourceFileNotFound cf.source, fs1)
      else if sources.length == 1 && !(fs1.pathExists (sources.headD "")) then
        .error (.sourceFileNotFound cf.source, fs1)
      else cf.copyLoop udb sources fs1
    else
      if sources.isEmpty || (sources.length == 1 && !(fs1.pathExists (sources.headD ""))) then
        .ok fs1
      else cf.copyLoop udb sources fs1

/-- `ConfigFile._cmp_file`: the existence guard, a content comparison via
two `open(...)` calls, then the permission, owning-user and owning-group
comparisons against the destination's `os.stat`. -/
def ConfigFile.cmpFile (cf : ConfigFile) (udb : UserDB) (fs : FS) (s d : String) :
    Except Err Bool :=
  if fs.pathExists s && !cf.optional && !(fs.pathExists d) then .ok false
  else
    match fs.readFileE s with
    | .error e => .error e
    | .ok c1 =>
      match fs.readFileE d with
      | .error e => .error e
      | .ok c2 =>
        if !(c1 == c2) then .ok false
        else
          match fs.statE d with
          | .error e => .error e
          | .ok (mode, uid, gid) =>
            if !(cf.perm == octLast4 mode) then .ok false
            else
              match udb.getpwuidName uid with
              | none => .error (.keyError cf.owner)
              | some un =>
                if !(un == cf.owner) then .ok false
                else
                  match udb.getgrgidName gid with
                  | none => .error (.keyError cf.owner)
                  | some gn => if !(gn == cf.owner) then .ok false else .ok true

/-- The directory half of the `_cmp_dir` walk: each directory underneath
`source` is compared by permission bits against the path the code computes,
`os.path.join(dest, os.path.relpath(source, full_path))`. -/
def ConfigFile.cmpDirDirs (cf : ConfigFile) (fs : FS) (source dest : String) :
    List String → Except Err Bool
  | [] => .ok true
  | p :: rest =>
    let dfp := pathJoin dest (relpath source p)
    match fs.statE dfp with
    | .error e => .error e
    | .ok (mode, _, _) =>
      if !(cf.perm == octLast4 mode) then .ok false
      else cf.cmpDirDirs fs source dest rest

/-- The file half of the `_cmp_dir` walk: each non-directory underneath
`source` goes through `_cmp_file` against
`os.path.join(dest, os.path.relpath(source, full_path))`. -/
def ConfigFile.cmpDirFiles (cf : ConfigFile) (udb : UserDB) (fs : FS) (source dest : String) :
    List String → Except Err Bool
  | [] => .ok true
  | p :: rest =>
    let dfp := pathJoin dest (relpath source p)
    match cf.cmpFile udb fs p dfp with
    | .error e => .error e
    | .ok false => .ok false
    | .ok true => cf.cmpDirFiles udb fs source dest rest

/-- `ConfigFile._cmp_dir`: walk the source tree, directories checked for
permission bits, files through `_cmp_file`, each against a destination path
computed as `join(dest, relpath(source, full_path))` - the arguments of
`relpath` exactly as the code passes them. -/
def ConfigFile.cmpDir (cf : ConfigFile) (udb : UserDB) (fs : FS) (source dest : String) :
    Except Err Bool :=
  let subs := (canonNodes fs).filter (fun kn => strictlyUnder source kn.1)
  let dirKeys := (subs.filter (fun kn => match kn.2 with | .dir .. => true | _ => false)).map Prod.fst
  let fileKeys := (subs.filter (fun kn => match kn.2 with | .dir .. => false | _ => true)).map Prod.fst
  match cf.cmpDirDirs fs source dest dirKeys with
  | .error e => .error e
  | .ok false => .ok false
  | .ok true => cf.cmpDirFiles udb fs source dest fileKeys

/-- The per-match loop of `ConfigFile.check`, accumulating the sources in a
bad state.  It mirrors the `if isdir(source) and not _cmp_dir(...): ...
elif not _cmp_file(...)` chain: when a directory source compares clean the
`elif` condition is still evaluated, so `_cmp_file` runs on the directory. -/
def ConfigFile.checkLoop (cf : ConfigFile) (udb : UserDB) (fs : FS) :
    List String → List String → Except Err (List String)
  | [], bad => .ok bad
  | s :: rest, bad =>
    if fs.isDir s then
      match cf.cmpDir udb fs s cf.dest with
      | .error e => .error e
      | .ok false => cf.checkLoop udb fs rest (bad ++ [s])
      | .ok true =>
        match cf.cmpFile udb fs s cf.dest with
        | .error e => .error e
        | .ok r2 => cf.checkLoop udb fs rest (if r2 then bad else bad ++ [s])
    else
      match cf.cmpFile udb fs s cf.dest with
      | .error e => .error e
      | .ok r2 => cf.checkLoop udb fs rest (if r2 then bad else bad ++ [s])

/-- `ConfigFile.check`: glob the source pattern, raise `SourceFileNotFound`
for a required pattern with no matches, compare every match, and raise a
single `ConfigFileBadState` naming the source pattern if any match was bad. -/
def ConfigFile.check (cf : ConfigFile) (udb : UserDB) (fs : FS) : Except (Err × FS) FS :=
  let sources := glob fs cf.source
  if sources.isEmpty && !cf.optional then .error (.sourceFileNotFound cf.source, fs)
  else
    match cf.checkLoop udb fs sources [] with
    | .error e => .error (e, fs)
    | .ok bad => if bad.isEmpty then .ok fs else .error (.configFileBadState cf.source, fs)

/-! ### Manifest loading and validation -/

/-- One parsed `config_files` list item, before validation: each key of the
JSON object may be present or absent. -/
structure EntrySpec where
  source : Option String
  dest : Option String
  owner : Option String
  perm : Option String
  optional : Option Bool
deriving DecidableEq, Repr

/-- A parsed manifest: `command` and `config_files` may each be present or
absent at the top level. -/
structure Config where
  command : Option String
  config_files : Option (List EntrySpec)
deriving DecidableEq, Repr

/-- `ConfigFile(**data)`: requires the four mandatory keys, `optional`
defaults to false. -/
def EntrySpec.toConfigFile (e : EntrySpec) : Option ConfigFile :=
  match e.source, e.dest, e.owner, e.perm with
  | some s, some d, some o, some p => some ⟨s, d, o, p, e.optional.getD false⟩
  | _, _, _, _ => none

/-- `validate_config`: `ConfigFileError` when `command` is missing or some
entry lacks one of the required keys. -/
def validateConfig (cfg : Config) : Except Err Config :=
  if cfg.command.isNone then .error .configFileError
  else if ((cfg.config_files.getD []).any
      (fun e => e.source.isNone || e.dest.isNone || e.owner.isNone || e.perm.isNone)) then
    .error .configFileError
  else .ok cfg

/-- The fixed fallback manifest path. -/
def configFilePath : String := "/var/lib/kolla/config_files/config.json"

/-- Environment-variable lookup (`os.environ.get`). -/
def envGet (env : List (String × String)) (k : String) : Option String :=
  (env.find? (fun r => r.1 == k)).map (·.2)

/-- `load_config`: the `KOLLA_CONFIG` environment value is parsed when
present (a parse failure is the `ValueError` that `json.loads` raises);
otherwise the fallback file is opened and parsed (`IOError` when it cannot
be opened or read, `ValueError` when its content is not valid JSON); the
result is then validated.  `parse` stands for `json.loads` restricted to
the manifest shape, `none` meaning the text is not valid structured data. -/
def loadConfig (env : List (String × String)) (parse : String → Option Config) (fs : FS) :
    Except Err Config :=
  match envGet env "KOLLA_CONFIG" with
  | some raw =>
    match parse raw with
    | none => .error .valueError
    | some cfg => validateConfig cfg
  | none =>
    match fs.readFileE configFilePath with
    | .error e => .error e
    | .ok content =>
      match parse content with
      | none => .error .valueError
      | some cfg => validateConfig cfg

/-! ### Strategy execution -/

/-- Observable top-level actions; the only one the claims watch is the
write of the command file. -/
inductive Event where
  | wroteRunCommand (content : String)
deriving DecidableEq, Repr

/-- Whole-machine state for the manifest-level functions: the filesystem
plus the trace of command-file writes. -/
structure Sys where
  fs : FS
  events : List Event
deriving DecidableEq, Repr

/-- The fixed command-file path. -/
def runCommandPath : String := "/run_command"

/-- The fixed sentinel path of `COPY_ONCE`. -/
def configuredPath : String := "/configured"

/-- `open('/run_command', 'w+').write(command)`: truncate or create, an
existing regular file keeps its permission bits. -/
def writeRunCommand (s : Sys) (c : String) : Except (Err × Sys) Sys :=
  match s.fs.lookup runCommandPath with
  | some (.dir ..) => .error (.ioError runCommandPath, s)
  | some (.file _ p u g _) =>
    .ok ⟨s.fs.insertPath runCommandPath (.file c p u g true), s.events ++ [.wroteRunCommand c]⟩
  | _ =>
    .ok ⟨s.fs.insertPath runCommandPath (.file c 0o644 procUid procGid true),
      s.events ++ [.wroteRunCommand c]⟩

/-- The entry loop of `copy_config`: construct each `ConfigFile` and run its
`copy`. -/
def copyEntries (udb : UserDB) : List EntrySpec → Sys → Except (Err × Sys) Sys
  | [], s => .ok s
  | e :: rest, s =>
    match e.toConfigFile with
    | none => .error (.typeError, s)
    | some cf =>
      match cf.copy udb s.fs with
      | .error (err, f) => .error (err, ⟨f, s.events⟩)
      | .ok f => copyEntries udb rest ⟨f, s.events⟩

/-- `copy_config`: run every entry's `copy` when `config_files` is present
(its absence means nothing to copy), then write the manifest's `command`
string to the command file. -/
def copyConfig (cfg : Config) (udb : UserDB) (s : Sys) : Except (Err × Sys) Sys :=
  match (match cfg.config_files with
         | some entries => copyEntries udb entries s
         | none => .ok s) with
  | .error e => .error e
  | .ok s1 =>
    match cfg.command with
    | none => .error (.keyError "command", s1)
    | some c => writeRunCommand s1 c

/-- `os.mknod('/configured')`: create the empty sentinel, failing if the
path is already bound. -/
def mknodConfigured (s : Sys) : Except (Err × Sys) Sys :=
  if s.fs.lexists configuredPath then .error (.osError configuredPath, s)
  else .ok ⟨s.fs.insertPath configuredPath (.file "" 0o600 procUid procGid true), s.events⟩

/-- `execute_config_strategy`: dispatch on the `KOLLA_CONFIG_STRATEGY`
environment value - `COPY_ALWAYS` always copies, `COPY_ONCE` copies and
creates the sentinel unless the sentinel exists, anything else (an absent
value included) is `BadConfigStrategy`. -/
def executeConfigStrategy (env : List (String × String)) (cfg : Config) (udb : UserDB)
    (s : Sys) : Except (Err × Sys) Sys :=
  let strat := envGet env "KOLLA_CONFIG_STRATEGY"
  if strat == some "COPY_ALWAYS" then copyConfig cfg udb s
  else if strat == some "COPY_ONCE" then
    if s.fs.pathExists configuredPath then .ok s
    else
      match copyConfig cfg udb s with
      | .error e => .error e
      | .ok s1 => mknodConfigured s1
  else .error (.badConfigStrategy, s)

/-- The entry loop of `execute_config_check`. -/
def checkEntries (udb : UserDB) : List EntrySpec → Sys → Except (Err × Sys) Sys
  | [], s => .ok s
  | e :: rest, s =>
    match e.toConfigFile with
    | none => .error (.typeError, s)
    | some cf =>
      match cf.check udb s.fs with
      | .error (err, f) => .error (err, ⟨f, s.events⟩)
      | .ok f => checkEntries udb rest ⟨f, s.events⟩

/-- `execute_config_check`: `config['config_files']` is indexed without a
guard, so an absent key raises `KeyError`; each entry then runs `check`. -/
def executeConfigCheck (cfg : Config) (udb : UserDB) (s : Sys) : Except (Err × Sys) Sys :=
  match cfg.config_files with
  | none => .error (.keyError "config_files", s)
  | some entries => checkEntries udb entries s

/-! ### Spec-side definitions used for comparison

These two definitions follow the specification's words, not the code; they
exist to be compared with what the code computes. -/

/-- The spec's description of the `perm` side effect: "parsing `perm` as an
octal string". -/
def parsePermAsOctal (s : String) : Option Nat :=
  digitsVal 8 s.toList (some 0)

/-- The spec's per-match disagreement predicate for `check` (§4.3, (a)-(e)):
the destination `d` of a matched source `s` is bad iff the source exists,
the entry is required and the destination is missing; or the contents
differ; or the destination's last-four-octal-digit permission string differs
from `perm`; or its owning user name differs from `owner`; or its owning
group name differs from `owner`. -/
def specDisagrees (cf : ConfigFile) (udb : UserDB) (fs : FS) (s d : String) : Prop :=
  (fs.pathExists s = true ∧ cf.optional = false ∧ fs.pathExists d = false)
  ∨ fs.readFileE s ≠ fs.readFileE d
  ∨ (fs.statE d).toOption.map (fun st => octLast4 st.1) ≠ some cf.perm
  ∨ ((fs.statE d).toOption.bind (fun st => udb.getpwuidName st.2.1)) ≠ some cf.owner
  ∨ ((fs.statE d).toOption.bind (fun st => udb.getgrgidName st.2.2)) ≠ some cf.owner

/-- Does `_cmp_file` report this match as bad (returning `False`)? -/
def cmpBad (cf : ConfigFile) (udb : UserDB) (fs : FS) (s : String) : Bool :=
  match cf.cmpFile udb fs s cf.dest with
  | .ok false => true
  | _ => false

/-- Content of the file at a path, if a readable or unreadable file is there. -/
def FS.contentAt (fs : FS) (p : String) : Option String :=
  match fs.lookup p with
  | some (.file c ..) => some c
  | _ => none

/-! ### Concrete states used by the witnesses and counterexamples -/

/-- A user database with the single user `app`, uid/gid 1000, and the group
`app` with gid 1000. -/
def udbW : UserDB := ⟨[("app", 1000, 1000)], [(1000, "app")]⟩

/-- Root, `/src` and the source file `/src/app.conf`; no `/etc`. -/
def fsApp : FS := ⟨[("/", .dir 0o755 0 0), ("/src", .dir 0o755 0 0),
  ("/src/app.conf", .file "hello" 0o644 0 0 true)]⟩

/-- The spec's own end-to-end example entry: file source, trailing-separator
destination. -/
def cfApp : ConfigFile := ⟨"/src/app.conf", "/etc/app/", "app", "0640", false⟩

/-- The state after the first `copy` of `cfApp` on `fsApp`. -/
def fsApp1 : FS :=
  match cfApp.copy udbW fsApp with
  | .ok f => f
  | .error _ => ⟨[]⟩

/-- The state at which the second `copy` of `cfApp` raises. -/
def fsApp2 : FS :=
  match cfApp.copy udbW fsApp1 with
  | .error (_, f) => f
  | .ok f => f

/-- A source directory `/src` and a destination directory `/dst` whose
single file mirrors the source exactly (content, permission, owner). -/
def fsMirror : FS := ⟨[("/", .dir 0o755 0 0),
  ("/src", .dir 0o640 1000 1000), ("/src/a", .file "x" 0o640 1000 1000 true),
  ("/dst", .dir 0o640 1000 1000), ("/dst/a", .file "x" 0o640 1000 1000 true)]⟩

/-- The directory entry for the mirrored pair. -/
def cfMirror : ConfigFile := ⟨"/src", "/dst", "app", "0640", false⟩

/-- Root, `/d`, and a pre-existing destination file `/d/f`. -/
def fsDf : FS := ⟨[("/", .dir 0o755 0 0), ("/d", .dir 0o755 0 0),
  ("/d/f", .file "old" 0o644 0 0 true)]⟩

/-- `fsDf` after `copy`'s destination preparation removed `/d/f`. -/
def fsDfPrep : FS := ⟨[("/", .dir 0o755 0 0), ("/d", .dir 0o755 0 0)]⟩

/-- An optional entry whose source pattern matches nothing. -/
def cfOptNone : ConfigFile := ⟨"/nope", "/d/f", "app", "0644", true⟩

/-- A required entry whose source pattern matches nothing. -/
def cfReqNone : ConfigFile := ⟨"/nope", "/d/f", "app", "0644", false⟩

/-- An entry whose `perm` string has no leading zero. -/
def cfPerm644 : ConfigFile := ⟨"/s", "/d/f", "app", "644", false⟩

/-- The state after `_set_permission` of `cfPerm644` on `/d/f`. -/
def fsPerm644 : FS :=
  match cfPerm644.setPermission udbW fsDf "/d/f" with
  | .ok f => f
  | .error _ => ⟨[]⟩

/-- Source `/s` and destination `/d` whose contents differ. -/
def fsChk : FS := ⟨[("/", .dir 0o755 0 0), ("/s", .file "x" 0o644 1000 1000 true),
  ("/d", .file "y" 0o644 1000 1000 true)]⟩

/-- The entry comparing `/s` against `/d`. -/
def cfChk : ConfigFile := ⟨"/s", "/d", "app", "0644", false⟩

/-- A manifest file that exists but cannot be read. -/
def fsCfgUnreadable : FS := ⟨[("/", .dir 0o755 0 0),
  ("/var", .dir 0o755 0 0), ("/var/lib", .dir 0o755 0 0), ("/var/lib/kolla", .dir 0o755 0 0),
  ("/var/lib/kolla/config_files", .dir 0o755 0 0),
  ("/var/lib/kolla/config_files/config.json", .file "secret" 0o600 0 0 false)]⟩

/-- A parse function under which no text is valid structured data. -/
def parseNone : String → Option Config := fun _ => none

/-- A manifest with a command and no `config_files` key. -/
def cfgCmdOnly : Config := ⟨some "run.sh", none⟩

/-- A required entry specification whose source matches nothing. -/
def esReq : EntrySpec := ⟨some "/nope", some "/d/f", some "app", some "0644", none⟩

/-- A manifest whose single entry has a required absent source. -/
def cfgReq : Config := ⟨some "run.sh", some [esReq]⟩

/-- The machine state over `fsDf` with an empty trace. -/
def sysW : Sys := ⟨fsDf, []⟩

/-- A machine state in which the `COPY_ONCE` sentinel exists. -/
def sysConfigured : Sys := ⟨⟨[("/", .dir 0o755 0 0),
  ("/configured", .file "" 0o600 0 0 true)]⟩, []⟩

/-- The state after a successful `copy_config` of `cfgCmdOnly` from `sysW`. -/
def sysAfterCopy : Sys :=
  match copyConfig cfgCmdOnly udbW sysW with
  | .ok t => t
  | .error _ => ⟨⟨[]⟩, []⟩

/-- Environments fixing the strategy value. -/
def envAlways : List (String × String) := [("KOLLA_CONFIG_STRATEGY", "COPY_ALWAYS")]

def envOnce : List (String × String) := [("KOLLA_CONFIG_STRATEGY", "COPY_ONCE")]

def envBogus : List (String × String) := [("KOLLA_CONFIG_STRATEGY", "BOGUS")]

/-! ### Support lemmas -/

theorem lookupKey_cons (a : String) (n : Node) (l : List (String × Node)) (k : String) :
    lookupKey ((a, n) :: l) k = if a = k then some n else lookupKey l k := rfl

theorem lookupKey_filter_excluded (k : String) (pred : String × Node → Bool)
    (l : List (String × Node)) (h : ∀ n, pred (k, n) = false) :
    lookupKey (l.filter pred) k = none := by
  induction l with
  | nil => rfl
  | cons kn rest ih =>
    obtain ⟨a, n⟩ := kn
    by_cases hp : pred (a, n) = true
    · rw [List.filter_cons_of_pos hp, lookupKey_cons]
      have hne : a ≠ k := by
        intro e
        rw [e] at hp
        rw [h n] at hp
        exact Bool.false_ne_true hp
      rw [if_neg hne]
      exact ih
    · rw [List.filter_cons_of_neg (by simpa using hp)]
      exact ih

theorem lookupKey_filter_ne (k ex : String) (l : List (String × Node)) (hne : k ≠ ex) :
    lookupKey (l.filter (fun kn => !(kn.1 == ex))) k = lookupKey l k := by
  induction l with
  | nil => rfl
  | cons kn rest ih =>
    obtain ⟨a, n⟩ := kn
    rw [List.filter_cons]
    by_cases ha : a = ex
    · rw [if_neg (by simp [ha]), lookupKey_cons,
        if_neg (fun e => hne (by rw [← e]; exact ha))]
      exact ih
    · rw [if_pos (by simp [ha]), lookupKey_cons, lookupKey_cons]
      by_cases hak : a = k
      · rw [if_pos hak, if_pos hak]
      · rw [if_neg hak, if_neg hak]
        exact ih

theorem FS.lookup_insert_self (fs : FS) (p : String) (n : Node) :
    (fs.insertPath p n).lookup p = some n := by
  show lookupKey ((normPath p, n) :: _) (normPath p) = some n
  rw [lookupKey_cons, if_pos rfl]

theorem FS.lookup_insert_ne (fs : FS) (p q : String) (n : Node)
    (h : normPath q ≠ normPath p) :
    (fs.insertPath p n).lookup q = fs.lookup q := by
  show lookupKey ((normPath p, n) :: (fs.nodes.filter _)) (normPath q) = _
  rw [lookupKey_cons, if_neg (Ne.symm h)]
  exact lookupKey_filter_ne _ _ _ h

theorem FS.lookup_erase_self (fs : FS) (p : String) :
    (fs.erasePath p).lookup p = none := by
  apply lookupKey_filter_excluded
  intro n
  simp

theorem FS.lookup_rmtree_self (fs : FS) (p : String)
    (h : underEq p (normPath p) = true) :
    (fs.rmtree p).lookup p = none := by
  apply lookupKey_filter_excluded
  intro n
  simp [h]

theorem pathExists_eq_false_of_lookup_none (fs : FS) (p : String)
    (h : fs.lookup p = none) : fs.pathExists p = false := by
  unfold FS.pathExists
  rw [h]

/-- The entry loop of `copy_config` never touches the event trace. -/
theorem copyEntries_events (udb : UserDB) : ∀ (es : List EntrySpec) (s : Sys),
    (∀ t, copyEntries udb es s = .ok t → t.events = s.events) ∧
    (∀ e t, copyEntries udb es s = .error (e, t) → t.events = s.events) := by
  intro es
  induction es with
  | nil =>
    intro s
    constructor
    · intro t h
      cases h
      rfl
    · intro e t h
      cases h
  | cons a rest ih =>
    intro s
    constructor
    · intro t h
      unfold copyEntries at h
      cases hc : a.toConfigFile with
      | none =>
        simp only [hc] at h
        cases h
      | some cf =>
        simp only [hc] at h
        cases hcp : cf.copy udb s.fs with
        | error ef =>
          obtain ⟨e0, f0⟩ := ef
          simp only [hcp] at h
          cases h
        | ok f =>
          simp only [hcp] at h
          exact (ih ⟨f, s.events⟩).1 t h
    · intro e t h
      unfold copyEntries at h
      cases hc : a.toConfigFile with
      | none =>
        simp only [hc] at h
        cases h
        rfl
      | some cf =>
        simp only [hc] at h
        cases hcp : cf.copy udb s.fs with
        | error ef =>
          obtain ⟨e0, f0⟩ := ef
          simp only [hcp] at h
          cases h
          rfl
        | ok f =>
          simp only [hcp] at h
          exact (ih ⟨f, s.events⟩).2 e t h

/-- A successful command-file write stores exactly the given content and
appends exactly one write event. -/
theorem writeRunCommand_ok (s : Sys) (c : String) (t : Sys)
    (h : writeRunCommand s c = .ok t) :
    t.fs.contentAt runCommandPath = some c ∧
      t.events = s.events ++ [.wroteRunCommand c] := by
  unfold writeRunCommand at h
  split at h
  · cases h
  · cases h
    constructor
    · unfold FS.contentAt
      rw [FS.lookup_insert_self]
    · rfl
  · cases h
    constructor
    · unfold FS.contentAt
      rw [FS.lookup_insert_self]
    · rfl

/-! ### The `_cmp_file` / spec bridge -/

/-- When `_cmp_file` completes without raising, it reports `False` exactly
when the spec's disagreement predicate (a)-(e) holds. -/
theorem cmpFile_spec (cf : ConfigFile) (udb : UserDB) (fs : FS) (s d : String) (b : Bool)
    (h : cf.cmpFile udb fs s d = .ok b) :
    (b = false ↔ specDisagrees cf udb fs s d) := by
  unfold ConfigFile.cmpFile at h
  by_cases hg : (fs.pathExists s && !cf.optional && !(fs.pathExists d)) = true
  · rw [if_pos hg] at h
    cases h
    have hg' := hg
    simp only [Bool.and_eq_true, Bool.not_eq_true'] at hg'
    exact iff_of_true rfl (Or.inl ⟨hg'.1.1, hg'.1.2, hg'.2⟩)
  · rw [if_neg hg] at h
    cases h1 : fs.readFileE s with
    | error e1 =>
      simp only [h1] at h
      cases h
    | ok c1 =>
      simp only [h1] at h
      cases h2 : fs.readFileE d with
      | error e2 =>
        simp only [h2] at h
        cases h
      | ok c2 =>
        simp only [h2] at h
        by_cases hc : (!(c1 == c2)) = true
        · rw [if_pos hc] at h
          cases h
          refine iff_of_true rfl (Or.inr (Or.inl ?_))
          rw [h1, h2]
          intro he
          injection he with he'
          simp only [Bool.not_eq_true', beq_eq_false_iff_ne] at hc
          exact hc he'
        · rw [if_neg hc] at h
          have hceq : c1 = c2 := by
            simp only [Bool.not_eq_true', Bool.not_eq_false, beq_iff_eq] at hc
            exact hc
          cases h3 : fs.statE d with
          | error e3 =>
            simp only [h3] at h
            cases h
          | ok st =>
            obtain ⟨mode, uid, gid⟩ := st
            simp only [h3] at h
            by_cases hp : (!(cf.perm == octLast4 mode)) = true
            · rw [if_pos hp] at h
              cases h
              refine iff_of_true rfl (Or.inr (Or.inr (Or.inl ?_)))
              rw [h3]
              simp only [Bool.not_eq_true', beq_eq_false_iff_ne] at hp
              simp only [Except.toOption, Option.map]
              intro he
              injection he with he'
              exact hp he'.symm
            · rw [if_neg hp] at h
              have hpeq : cf.perm = octLast4 mode := by
                simp only [Bool.not_eq_true', Bool.not_eq_false, beq_iff_eq] at hp
                exact hp
              cases h4 : udb.getpwuidName uid with
              | none =>
                simp only [h4] at h
                cases h
              | some un =>
                simp only [h4] at h
                by_cases hu : (!(un == cf.owner)) = true
                · rw [if_pos hu] at h
                  cases h
                  refine iff_of_true rfl (Or.inr (Or.inr (Or.inr (Or.inl ?_))))
                  rw [h3]
                  simp only [Bool.not_eq_true', beq_eq_false_iff_ne] at hu
                  simp only [Except.toOption, Option.bind]
                  rw [h4]
                  intro he
                  injection he with he'
                  exact hu he'
                · rw [if_neg hu] at h
                  have hueq : un = cf.owner := by
                    simp only [Bool.not_eq_true', Bool.not_eq_false, beq_iff_eq] at hu
                    exact hu
                  cases h5 : udb.getgrgidName gid with
                  | none =>
                    simp only [h5] at h
                    cases h
                  | some gn =>
                    simp only [h5] at h
                    by_cases hgr : (!(gn == cf.owner)) = true
                    · rw [if_pos hgr] at h
                      cases h
                      refine iff_of_true rfl
                        (Or.inr (Or.inr (Or.inr (Or.inr ?_))))
                      rw [h3]
                      simp only [Bool.not_eq_true', beq_eq_false_iff_ne] at hgr
                      simp only [Except.toOption, Option.bind]
                      rw [h5]
                      intro he
                      injection he with he'
                      exact hgr he'
                    · rw [if_neg hgr] at h
                      have hgeq : gn = cf.owner := by
                        simp only [Bool.not_eq_true', Bool.not_eq_false, beq_iff_eq] at hgr
                        exact hgr
                      cases h
                      apply iff_of_false
                      · intro he
                        cases he
                      · intro hspec
                        rcases hspec with ha | hb | hcs | hd | he
                        · exact hg (by simp [ha.1, ha.2.1, ha.2.2])
                        · rw [h1, h2, hceq] at hb
                          exact hb rfl
                        · rw [h3] at hcs
                          simp only [Except.toOption, Option.map] at hcs
                          exact hcs (by rw [hpeq])
                        · rw [h3] at hd
                          simp only [Except.toOption, Option.bind] at hd
                          rw [h4] at hd
                          exact hd (by rw [hueq])
                        · rw [h3] at he
                          simp only [Except.toOption, Option.bind] at he
                          rw [h5] at he
                          exact he (by rw [hgeq])

/-- `cmpBad` decodes the boolean that a completed `_cmp_file` returned. -/
theorem cmpBad_eq (cf : ConfigFile) (udb : UserDB) (fs : FS) (s : String) (b : Bool)
    (hb : cf.cmpFile udb fs s cf.dest = .ok b) :
    cmpBad cf udb fs s = !b := by
  unfold cmpBad
  rw [hb]
  cases b <;> rfl

/-- On sources that are not directories and whose comparisons complete, the
loop of `check` returns the accumulated list extended with exactly the
sources whose `_cmp_file` returned `False`. -/
theorem checkLoop_files (cf : ConfigFile) (udb : UserDB) (fs : FS) :
    ∀ (ss bad : List String),
    (∀ s ∈ ss, fs.isDir s = false) →
    (∀ s ∈ ss, ∃ b, cf.cmpFile udb fs s cf.dest = .ok b) →
    cf.checkLoop udb fs ss bad = .ok (bad ++ ss.filter (cmpBad cf udb fs)) := by
  intro ss
  induction ss with
  | nil =>
    intro bad _ _
    simp [ConfigFile.checkLoop]
  | cons s rest ih =>
    intro bad hd hok
    have hds : fs.isDir s = false := hd s (List.mem_cons_self _ _)
    obtain ⟨b, hb⟩ := hok s (List.mem_cons_self _ _)
    unfold ConfigFile.checkLoop
    rw [hds]
    simp only [Bool.false_eq_true, if_false, hb]
    have hdr : ∀ x ∈ rest, fs.isDir x = false := fun x hx => hd x (List.mem_cons_of_mem _ hx)
    have hokr : ∀ x ∈ rest, ∃ bb, cf.cmpFile udb fs x cf.dest = .ok bb :=
      fun x hx => hok x (List.mem_cons_of_mem _ hx)
    rw [List.filter_cons, cmpBad_eq cf udb fs s b hb]
    cases b
    · show cf.checkLoop udb fs rest (bad ++ [s]) =
        .ok (bad ++ s :: List.filter (cmpBad cf udb fs) rest)
      rw [ih (bad ++ [s]) hdr hokr, List.append_assoc, List.singleton_append]
    · show cf.checkLoop udb fs rest bad =
        .ok (bad ++ List.filter (cmpBad cf udb fs) rest)
      exact ih bad hdr hokr

/-! ### The claims -/

/-- C9: the claim says a second `copy()` with unchanged source reproduces a
byte-identical destination with identical owner and permission.  The code
violates this for a trailing-separator destination (the very shape of the
spec's own end-to-end example): the first call creates `/etc/app` (via the
parent-creation branch) and installs `/etc/app/app.conf`; the second call
finds the destination directory, removes it recursively, skips the
parent-creation branch (an `elif`), and then `shutil.copy` fails with an
IOError because `/etc/app` no longer exists - leaving the destination
destroyed rather than reproduced. -/
theorem claim_C9_code_bug :
    cfApp.copy udbW fsApp = .ok fsApp1 ∧
    fsApp1.lookup "/etc/app/app.conf" = some (.file "hello" 0o640 1000 1000 true) ∧
    cfApp.copy udbW fsApp1 = .error (.ioError "/etc/app/app.conf", fsApp2) ∧
    fsApp2.pathExists "/etc/app/app.conf" = false ∧
    fsApp2.pathExists "/etc/app" = false := by
  refine ⟨rfl, by decide, by decide, by decide, by decide⟩

/-- C5: the claim (and the spec) say `_cmp_dir` compares each path `p` under
`source` against `dest` joined with the relative path of `p` with respect to
`source`.  The code swaps the arguments of `os.path.relpath`: for the
subfile `/src/a` of source `/src` it computes `join("/dst",
relpath("/src", "/src/a")) = "/dst/.."` instead of the mirrored `"/dst/a"`.
On a destination tree that mirrors the source perfectly, `check` therefore
raises an IOError from opening the directory `/dst/..` resolves to, even
though the correctly mirrored destination compares clean. -/
theorem claim_C5_code_bug :
    pathJoin cfMirror.dest (relpath cfMirror.source "/src/a") = "/dst/.." ∧
    pathJoin cfMirror.dest (relpath "/src/a" cfMirror.source) = "/dst/a" ∧
    cfMirror.cmpFile udbW fsMirror "/src/a" "/dst/a" = .ok true ∧
    cfMirror.check udbW fsMirror = .error (.ioError "/dst/..", fsMirror) := by
  refine ⟨by decide, by decide, by decide, by decide⟩

/-- C4 counterexample: the claim says `copy()` on an optional entry with an
empty source expansion leaves the filesystem state at `dest` unchanged.  But
the destination-preparation step runs before the source check: with a
pre-existing destination file `/d/f`, the call returns silently yet `/d/f`
has been deleted. -/
theorem claim_C4_counterexample :
    cfOptNone.optional = true ∧
    glob fsDf cfOptNone.source = [] ∧
    fsDf.pathExists cfOptNone.dest = true ∧
    cfOptNone.copy udbW fsDf = .ok fsDfPrep ∧
    fsDfPrep.pathExists cfOptNone.dest = false := by
  refine ⟨rfl, by decide, by decide, by decide, by decide⟩

/-- C4 amended: for an optional entry whose post-preparation source
expansion is empty or a single non-existent path, `copy()` returns silently
without raising - but the destination is not untouched: the call returns
exactly the prepared state, in which a previously existing destination has
been removed. -/
theorem claim_C4_amended (cf : ConfigFile) (udb : UserDB) (fs fs' : FS)
    (hopt : cf.optional = true)
    (hprep : cf.prep fs = .ok fs')
    (hnd : underEq cf.dest (normPath cf.dest) = true)
    (hsrc : glob fs' cf.source = [] ∨
      ∃ s, glob fs' cf.source = [s] ∧ fs'.pathExists s = false) :
    cf.copy udb fs = .ok fs' ∧
      (fs.pathExists cf.dest = true → fs'.pathExists cf.dest = false) := by
  constructor
  · unfold ConfigFile.copy
    simp only [hprep]
    rcases hsrc with h | ⟨s, h, hex⟩
    · simp [hopt, h]
    · simp [hopt, h, hex]
  · intro hex
    unfold ConfigFile.prep at hprep
    split at hprep
    · split at hprep
      · cases hprep
        exact pathExists_eq_false_of_lookup_none _ _ (FS.lookup_rmtree_self fs cf.dest hnd)
      · cases hprep
        exact pathExists_eq_false_of_lookup_none _ _ (FS.lookup_erase_self fs cf.dest)
    · rename_i hcond
      exact absurd hex hcond

/-- C4 witness: the amended claim at the concrete counterexample input. -/
theorem claim_C4_witness :
    cfOptNone.copy udbW fsDf = .ok fsDfPrep ∧
    fsDfPrep.pathExists cfOptNone.dest = false :=
  ⟨(claim_C4_amended cfOptNone udbW fsDf fsDfPrep rfl (by decide) (by decide)
      (Or.inl (by decide))).1,
   (claim_C4_amended cfOptNone udbW fsDf fsDfPrep rfl (by decide) (by decide)
      (Or.inl (by decide))).2 (by decide)⟩

/-- C3: a required entry fails with `SourceFileNotFound` from `copy()` when
the (post-preparation) glob expansion is empty or is a single path that does
not exist, and from `check()` when the expansion is empty. -/
theorem claim_C3_required_source (cf : ConfigFile) (udb : UserDB) (fs fs' : FS)
    (hopt : cf.optional = false)
    (hprep : cf.prep fs = .ok fs') :
    ((glob fs' cf.source = [] ∨
        ∃ s, glob fs' cf.source = [s] ∧ fs'.pathExists s = false) →
      cf.copy udb fs = .error (.sourceFileNotFound cf.source, fs')) ∧
    (glob fs cf.source = [] →
      cf.check udb fs = .error (.sourceFileNotFound cf.source, fs)) := by
  constructor
  · intro hsrc
    unfold ConfigFile.copy
    simp only [hprep]
    rcases hsrc with h | ⟨s, h, hex⟩
    · simp [hopt, h]
    · simp [hopt, h, hex]
  · intro h
    unfold ConfigFile.check
    simp [hopt, h]

/-- C3 witness: the required entry `/nope` on a state where it matches
nothing. -/
theorem claim_C3_witness :
    cfReqNone.copy udbW fsDf = .error (.sourceFileNotFound "/nope", fsDfPrep) ∧
    cfReqNone.check udbW fsDf = .error (.sourceFileNotFound "/nope", fsDf) :=
  ⟨(claim_C3_required_source cfReqNone udbW fsDf fsDfPrep rfl (by decide)).1
      (Or.inl (by decide)),
   (claim_C3_required_source cfReqNone udbW fsDf fsDfPrep rfl (by decide)).2 (by decide)⟩

/-- C6 counterexample: the claim says the permission bits applied are the
result of parsing `perm` as an octal string.  The code parses with
`int(perm, 0)`, which auto-detects the base: for `perm = "644"` (no leading
zero) it applies decimal 644, not octal 644 = 420. -/
theorem claim_C6_counterexample :
    parsePermAsOctal "644" = some 0o644 ∧
    parseIntBase0 "644" = some 644 ∧
    cfPerm644.setPermission udbW fsDf "/d/f" = .ok fsPerm644 ∧
    fsPerm644.lookup "/d/f" = some (.file "old" 644 1000 1000 true) ∧
    (644 : Nat) ≠ 0o644 := by
  refine ⟨by decide, by decide, by decide, by decide, by decide⟩

/-- C6 amended: `_set_permission` sets ownership to the `pw_uid`/`pw_gid`
of the passwd entry for `owner` (the gid is the user's primary group id,
assumed to name a group equal to the user name), and sets the permission
bits to `int(perm, 0)` - base auto-detected, octal exactly when the string
carries a leading zero or `0o` prefix - applied verbatim with no masking. -/
theorem claim_C6_amended (cf : ConfigFile) (udb : UserDB) (fs : FS) (p : String)
    (uid gid : Nat) (n : Node) (m : Nat)
    (hu : udb.getpwnam cf.owner = some (uid, gid))
    (hn : fs.lookup p = some n)
    (hnb : n ≠ .broken)
    (hm : parseIntBase0 cf.perm = some m) :
    ∃ fs', cf.setPermission udb fs p = .ok fs' ∧
      fs'.lookup p = some ((n.withOwner uid gid).withPerm m) ∧
      ∀ q, normPath q ≠ normPath p → fs'.lookup q = fs.lookup q := by
  unfold ConfigFile.setPermission
  rw [hu]
  cases n with
  | broken => exact absurd rfl hnb
  | file c pm u g r =>
    simp only [hn, hm, FS.lookup_insert_self]
    refine ⟨_, rfl, FS.lookup_insert_self _ _ _, ?_⟩
    intro q hq
    rw [FS.lookup_insert_ne _ _ _ _ hq, FS.lookup_insert_ne _ _ _ _ hq]
  | dir pm u g =>
    simp only [hn, hm, FS.lookup_insert_self]
    refine ⟨_, rfl, FS.lookup_insert_self _ _ _, ?_⟩
    intro q hq
    rw [FS.lookup_insert_ne _ _ _ _ hq, FS.lookup_insert_ne _ _ _ _ hq]

/-- C6 witness: the amended claim at the `perm = "644"` input. -/
theorem claim_C6_witness :
    fsPerm644.lookup "/d/f" = some (.file "old" 644 1000 1000 true) := by
  obtain ⟨fs', h1, h2, _⟩ :=
    claim_C6_amended cfPerm644 udbW fsDf "/d/f" 1000 1000
      (.file "old" 0o644 0 0 true) 644 rfl rfl (by decide) rfl
  have he : fsPerm644 = fs' := by
    unfold fsPerm644
    rw [h1]
  rw [he]
  exact h2

/-- C7 counterexample: the claim says a fallback manifest file that exists
but cannot be read fails with the (spec-side) parse error.  In the code the
parse failures are the `ValueError` that `json` raises, while an unreadable
file raises `IOError` from `open` - a different exception. -/
theorem claim_C7_counterexample :
    envGet [] "KOLLA_CONFIG" = none ∧
    fsCfgUnreadable.lexists configFilePath = true ∧
    loadConfig [] parseNone fsCfgUnreadable = .error (.ioError configFilePath) ∧
    Err.ioError configFilePath ≠ Err.valueError := by
  refine ⟨rfl, by decide, by decide, by decide⟩

/-- C7 amended: manifest loading fails with the JSON `ValueError` whenever
the environment-supplied value exists but does not parse, or the environment
value is absent and the fallback file's content does not parse; a fallback
file that cannot be opened or read fails with the `IOError` of the failed
read instead. -/
theorem claim_C7_amended (env : List (String × String)) (parse : String → Option Config)
    (fs : FS) :
    (∀ raw, envGet env "KOLLA_CONFIG" = some raw → parse raw = none →
      loadConfig env parse fs = .error .valueError) ∧
    (envGet env "KOLLA_CONFIG" = none →
      (∀ content, fs.readFileE configFilePath = .ok content → parse content = none →
        loadConfig env parse fs = .error .valueError) ∧
      (∀ e, fs.readFileE configFilePath = .error e →
        loadConfig env parse fs = .error e)) := by
  refine ⟨?_, ?_⟩
  · intro raw h1 h2
    unfold loadConfig
    rw [h1]
    simp only [h2]
  · intro h1
    refine ⟨?_, ?_⟩
    · intro content h2 h3
      unfold loadConfig
      rw [h1]
      simp only [h2, h3]
    · intro e h2
      unfold loadConfig
      rw [h1]
      simp only [h2]

/-- C7 witness: the amended claim at an invalid environment value and at the
unreadable fallback file. -/
theorem claim_C7_witness :
    loadConfig [("KOLLA_CONFIG", "bad")] parseNone fsCfgUnreadable = .error .valueError ∧
    loadConfig [] parseNone fsCfgUnreadable = .error (.ioError configFilePath) :=
  ⟨(claim_C7_amended [("KOLLA_CONFIG", "bad")] parseNone fsCfgUnreadable).1 "bad" rfl rfl,
   ((claim_C7_amended [] parseNone fsCfgUnreadable).2 rfl).2 _ (by decide)⟩

/-- C1: for an entry whose source glob has at least one match, every match
being a regular file whose comparison completes, `check()` raises
`ConfigFileBadState` - naming the source pattern, aggregated over the
entry's matches - exactly when at least one matched source disagrees with
the installed destination in the sense of the spec's (a)-(e) disjunction
(`specDisagrees`). -/
theorem claim_C1_check_bad_state_iff (cf : ConfigFile) (udb : UserDB) (fs : FS)
    (hne : glob fs cf.source ≠ [])
    (hd : ∀ s ∈ glob fs cf.source, fs.isDir s = false)
    (hok : ∀ s ∈ glob fs cf.source, ∃ b, cf.cmpFile udb fs s cf.dest = .ok b) :
    cf.check udb fs = .error (.configFileBadState cf.source, fs) ↔
      ∃ s ∈ glob fs cf.source, specDisagrees cf udb fs s cf.dest := by
  unfold ConfigFile.check
  have hie : (glob fs cf.source).isEmpty = false := by
    cases hgg : glob fs cf.source with
    | nil => exact absurd hgg hne
    | cons a l => rfl
  simp only [hie, Bool.false_and, Bool.false_eq_true, if_false]
  rw [checkLoop_files cf udb fs _ [] hd hok]
  simp only [List.nil_append]
  by_cases hf : List.filter (cmpBad cf udb fs) (glob fs cf.source) = []
  · rw [hf]
    apply iff_of_false
    · intro he
      cases he
    · rintro ⟨s, hs, hspec⟩
      obtain ⟨b, hb⟩ := hok s hs
      have hbf : b = false := (cmpFile_spec cf udb fs s cf.dest b hb).mpr hspec
      subst hbf
      have hmem : s ∈ List.filter (cmpBad cf udb fs) (glob fs cf.source) :=
        List.mem_filter.mpr ⟨hs, by rw [cmpBad_eq cf udb fs s false hb]; rfl⟩
      rw [hf] at hmem
      cases hmem
  · have hie2 : (List.filter (cmpBad cf udb fs) (glob fs cf.source)).isEmpty = false := by
      cases hff : List.filter (cmpBad cf udb fs) (glob fs cf.source) with
      | nil => exact absurd hff hf
      | cons a l => rfl
    simp only [hie2, Bool.false_eq_true, if_false]
    apply iff_of_true
    · trivial
    · obtain ⟨s, hsmem⟩ := List.exists_mem_of_ne_nil _ hf
      have hsf := List.mem_filter.mp hsmem
      obtain ⟨b, hb⟩ := hok s hsf.1
      have hbb := hsf.2
      rw [cmpBad_eq cf udb fs s b hb] at hbb
      have hbf : b = false := by
        cases b
        · rfl
        · cases hbb
      subst hbf
      exact ⟨s, hsf.1, (cmpFile_spec cf udb fs s cf.dest false hb).mp rfl⟩

/-- C1 witness: the clean direction and the bad direction at concrete
states: on `fsChk` the contents differ, so `check` raises
`ConfigFileBadState` for the pattern. -/
theorem claim_C1_witness :
    cfChk.check udbW fsChk = .error (.configFileBadState "/s", fsChk) :=
  (claim_C1_check_bad_state_iff cfChk udbW fsChk (by decide)
    (by
      have hgl : glob fsChk cfChk.source = ["/s"] := by decide
      rw [hgl]
      intro s hs
      rw [List.mem_singleton] at hs
      subst hs
      decide)
    (by
      have hgl : glob fsChk cfChk.source = ["/s"] := by decide
      rw [hgl]
      intro s hs
      rw [List.mem_singleton] at hs
      subst hs
      exact ⟨false, by decide⟩)).mpr
    ⟨"/s", by decide, by unfold specDisagrees; decide⟩

/-- C2: `execute_config_strategy` with `COPY_ALWAYS` is exactly the full
copy pass (`copy_config`) on every invocation; with `COPY_ONCE` it is the
identity when the sentinel exists and otherwise the full copy pass followed
by the sentinel creation (which, on success, leaves the sentinel in place
with the trace untouched); any other strategy value, an absent one included,
fails with `BadConfigStrategy` at the unchanged state. -/
theorem claim_C2_strategy_dispatch (env : List (String × String)) (cfg : Config)
    (udb : UserDB) (s : Sys) :
    (envGet env "KOLLA_CONFIG_STRATEGY" = some "COPY_ALWAYS" →
      executeConfigStrategy env cfg udb s = copyConfig cfg udb s) ∧
    (envGet env "KOLLA_CONFIG_STRATEGY" = some "COPY_ONCE" →
      s.fs.pathExists configuredPath = true →
      executeConfigStrategy env cfg udb s = .ok s) ∧
    (envGet env "KOLLA_CONFIG_STRATEGY" = some "COPY_ONCE" →
      s.fs.pathExists configuredPath = false →
      (∀ e t, copyConfig cfg udb s = .error (e, t) →
        executeConfigStrategy env cfg udb s = .error (e, t)) ∧
      (∀ t, copyConfig cfg udb s = .ok t →
        executeConfigStrategy env cfg udb s = mknodConfigured t ∧
        (∀ u, mknodConfigured t = .ok u →
          u.fs.pathExists configuredPath = true ∧ u.events = t.events))) ∧
    (envGet env "KOLLA_CONFIG_STRATEGY" ≠ some "COPY_ALWAYS" →
      envGet env "KOLLA_CONFIG_STRATEGY" ≠ some "COPY_ONCE" →
      executeConfigStrategy env cfg udb s = .error (.badConfigStrategy, s)) := by
  refine ⟨?_, ?_, ?_, ?_⟩
  · intro h
    unfold executeConfigStrategy
    simp [h]
  · intro h hc
    unfold executeConfigStrategy
    simp [h, hc]
  · intro h hc
    constructor
    · intro e t he
      unfold executeConfigStrategy
      simp [h, hc, he]
    · intro t ht
      constructor
      · unfold executeConfigStrategy
        simp [h, hc, ht]
      · intro u hu
        unfold mknodConfigured at hu
        split at hu
        · cases hu
        · cases hu
          constructor
          · unfold FS.pathExists
            rw [FS.lookup_insert_self]
          · rfl
  · intro h1 h2
    unfold executeConfigStrategy
    rw [if_neg (by simpa using h1), if_neg (by simpa using h2)]

/-- C2 witness: the dispatch at concrete strategy values: `COPY_ALWAYS`
runs the copy pass, `COPY_ONCE` with the sentinel present is a no-op,
`COPY_ONCE` without it is the copy pass then the sentinel creation, and a
bogus value fails with `BadConfigStrategy` at the unchanged state. -/
theorem claim_C2_witness :
    executeConfigStrategy envAlways cfgCmdOnly udbW sysW = copyConfig cfgCmdOnly udbW sysW ∧
    executeConfigStrategy envOnce cfgCmdOnly udbW sysConfigured = .ok sysConfigured ∧
    executeConfigStrategy envOnce cfgCmdOnly udbW sysW = mknodConfigured sysAfterCopy ∧
    executeConfigStrategy envBogus cfgCmdOnly udbW sysW = .error (.badConfigStrategy, sysW) :=
  ⟨(claim_C2_strategy_dispatch envAlways cfgCmdOnly udbW sysW).1 rfl,
   (claim_C2_strategy_dispatch envOnce cfgCmdOnly udbW sysConfigured).2.1 rfl (by decide),
   (((claim_C2_strategy_dispatch envOnce cfgCmdOnly udbW sysW).2.2.1 rfl (by decide)).2
      sysAfterCopy (by decide)).1,
   (claim_C2_strategy_dispatch envBogus cfgCmdOnly udbW sysW).2.2.2 (by decide) (by decide)⟩

/-- C8: when the entry loop of `copy_config` raises, `copy_config` fails
with that same error and no command-file write has happened in the pass
(the trace is unchanged - the write step runs only after every entry's
`copy` succeeded); when `copy_config` succeeds, the command file holds
exactly the manifest's literal `command` string (overwriting any previous
content) and exactly one write event was appended. -/
theorem claim_C8_command_file (cfg : Config) (udb : UserDB) (s : Sys) :
    (∀ e t, copyConfig cfg udb s = .error (e, t) → t.events = s.events) ∧
    (∀ es e t, cfg.config_files = some es → copyEntries udb es s = .error (e, t) →
      copyConfig cfg udb s = .error (e, t)) ∧
    (∀ t, copyConfig cfg udb s = .ok t → ∃ c, cfg.command = some c ∧
      t.fs.contentAt runCommandPath = some c ∧
      t.events = s.events ++ [.wroteRunCommand c]) := by
  refine ⟨?_, ?_, ?_⟩
  · intro e t h
    unfold copyConfig at h
    cases hes : cfg.config_files with
    | none =>
      simp only [hes] at h
      cases hc : cfg.command with
      | none =>
        simp only [hc] at h
        cases h
        rfl
      | some c =>
        simp only [hc] at h
        unfold writeRunCommand at h
        split at h
        · cases h
          rfl
        · cases h
        · cases h
    | some es =>
      simp only [hes] at h
      cases hloop : copyEntries udb es s with
      | error et =>
        obtain ⟨e0, t0⟩ := et
        simp only [hloop] at h
        cases h
        exact (copyEntries_events udb es s).2 _ t hloop
      | ok s1 =>
        simp only [hloop] at h
        have hs1 : s1.events = s.events := (copyEntries_events udb es s).1 s1 hloop
        cases hc : cfg.command with
        | none =>
          simp only [hc] at h
          cases h
          exact hs1
        | some c =>
          simp only [hc] at h
          unfold writeRunCommand at h
          split at h
          · cases h
            exact hs1
          · cases h
          · cases h
  · intro es e t hes hloop
    unfold copyConfig
    simp only [hes, hloop]
  · intro t h
    unfold copyConfig at h
    cases hes : cfg.config_files with
    | none =>
      simp only [hes] at h
      cases hc : cfg.command with
      | none =>
        simp only [hc] at h
        cases h
      | some c =>
        simp only [hc] at h
        obtain ⟨h1, h2⟩ := writeRunCommand_ok s c t h
        exact ⟨c, rfl, h1, h2⟩
    | some es =>
      simp only [hes] at h
      cases hloop : copyEntries udb es s with
      | error et =>
        obtain ⟨e0, t0⟩ := et
        simp only [hloop] at h
        cases h
      | ok s1 =>
        simp only [hloop] at h
        have hs1 : s1.events = s.events := (copyEntries_events udb es s).1 s1 hloop
        cases hc : cfg.command with
        | none =>
          simp only [hc] at h
          cases h
        | some c =>
          simp only [hc] at h
          obtain ⟨h1, h2⟩ := writeRunCommand_ok s1 c t h
          refine ⟨c, rfl, h1, ?_⟩
          rw [h2, hs1]

/-- C8 witness: a manifest whose single entry has a required absent source
fails without writing the command file; a manifest with no entries writes
exactly `run.sh`. -/
theorem claim_C8_witness :
    copyConfig cfgReq udbW sysW = .error (.sourceFileNotFound "/nope", ⟨fsDfPrep, []⟩) ∧
    ((⟨fsDfPrep, []⟩ : Sys)).events = sysW.events ∧
    sysAfterCopy.fs.contentAt runCommandPath = some "run.sh" ∧
    sysAfterCopy.events = sysW.events ++ [.wroteRunCommand "run.sh"] := by
  have herr := (claim_C8_command_file cfgReq udbW sysW).2.1 [esReq]
    (.sourceFileNotFound "/nope") ⟨fsDfPrep, []⟩ rfl (by decide)
  have hev := (claim_C8_command_file cfgReq udbW sysW).1 (.sourceFileNotFound "/nope")
    ⟨fsDfPrep, []⟩ herr
  obtain ⟨c, hc, h1, h2⟩ := (claim_C8_command_file cfgCmdOnly udbW sysW).2.2
    sysAfterCopy (by decide)
  have hcc : c = "run.sh" := by
    cases hc
    rfl
  subst hcc
  exact ⟨herr, hev, h1, h2⟩

/-- C10: with `config_files` absent from the manifest, check mode indexes
the manifest unconditionally and raises `KeyError` (outside the documented
error taxonomy), while the apply path treats the absence as nothing to copy
and proceeds to write the command file. -/
theorem claim_C10_check_vs_apply (cfg : Config) (udb : UserDB) (s : Sys)
    (h : cfg.config_files = none) :
    executeConfigCheck cfg udb s = .error (.keyError "config_files", s) ∧
    (∀ c, cfg.command = some c → s.fs.isDir runCommandPath = false →
      ∃ t, copyConfig cfg udb s = .ok t ∧ t.fs.contentAt runCommandPath = some c) := by
  constructor
  · unfold executeConfigCheck
    rw [h]
  · intro c hc hd
    unfold copyConfig
    simp only [h, hc]
    unfold writeRunCommand
    cases hl : s.fs.lookup runCommandPath with
    | none =>
      simp only [hl]
      refine ⟨_, rfl, ?_⟩
      unfold FS.contentAt
      rw [FS.lookup_insert_self]
    | some n =>
      cases n with
      | dir pm u g =>
        have hdt : s.fs.isDir runCommandPath = true := by
          unfold FS.isDir
          rw [hl]
        rw [hdt] at hd
        cases hd
      | file c0 pm u g r =>
        simp only [hl]
        refine ⟨_, rfl, ?_⟩
        unfold FS.contentAt
        rw [FS.lookup_insert_self]
      | broken =>
        simp only [hl]
        refine ⟨_, rfl, ?_⟩
        unfold FS.contentAt
        rw [FS.lookup_insert_self]

/-- C10 witness: the manifest with a command and no `config_files` key. -/
theorem claim_C10_witness :
    executeConfigCheck cfgCmdOnly udbW sysW = .error (.keyError "config_files", sysW) ∧
    copyConfig cfgCmdOnly udbW sysW = .ok sysAfterCopy ∧
    sysAfterCopy.fs.contentAt runCommandPath = some "run.sh" := by
  obtain ⟨t, h1, h2⟩ := (claim_C10_check_vs_apply cfgCmdOnly udbW sysW rfl).2
    "run.sh" rfl (by decide)
  have ht : sysAfterCopy = t := by
    unfold sysAfterCopy
    rw [h1]
  rw [ht]
  exact ⟨(claim_C10_check_vs_apply cfgCmdOnly udbW sysW rfl).1, h1, h2⟩

end Kolla
